import Mathlib

/-!
# Verification of `ExcelCSV.py`

A shallow embedding of `src/ExcelCSV.py`, a list-of-dictionaries interface to
CSV files in the Excel dialect, together with proofs settling the behavioural
claims about it.

Modelling decisions:

* The CSV text layer (quoting, BOM handling, comma escaping) is an external
  collaborator; a file is therefore modelled as a parsed row view,
  `List (List String)` — one `List String` per physical CSV row.  The file
  system is a partial map from path strings to such row lists (`none` = the
  file does not exist; opening it raises `FileNotFoundError`).
* Python dictionaries (`dict` / `OrderedDict`) are modelled as association
  lists with Python's insertion semantics: assigning to an existing key
  updates it in place, assigning to a fresh key appends it at the end.
* `csv.DictReader` values are `None` (its default `restval`) for columns
  missing from a short row, a string for ordinary cells, and a list of
  strings under the `None` rest-key for cells beyond the header width; the
  `Value` type captures exactly these three shapes.
* Exceptions (`KeyError`, `ValueError`, `IndexError`, `StopIteration`,
  `AttributeError`) are modelled with `Option`/error components; operations
  that can leave a partially-written file carry the file state alongside the
  error marker.
-/

/-- A Python value that can occur in a record produced or consumed by the
`csv` module in `ExcelCSV.py`: a text cell, Python's `None` (the
`DictReader` default `restval`), or the list of overflow cells stored under
the `DictReader` rest-key. -/
inductive Value where
  | str (s : String)
  | pyNone
  | rest (xs : List String)
  deriving DecidableEq, Repr

/-- A record, i.e. a Python `dict` from field names to values, as an
association list in insertion order.  The key `none` is `DictReader`'s
rest-key (Python key `None`); `some f` is the ordinary field name `f`. -/
abbrev Record := List (Option String × Value)

/-- The parsed row view of one CSV file: one entry per physical row. -/
abbrev CSVRows := List (List String)

/-- The file system: a map from paths to file contents, `none` meaning the
file does not exist. -/
abbrev FS := String → Option CSVRows

/-- The `ExcelCSV` object state: its only two attributes are `path` and
`fieldnames` (`ExcelCSV.py`, `__init__`). -/
structure Store where
  path : String
  fieldnames : List String
  deriving DecidableEq, Repr

/-- The keys of a record, in order. -/
def pyKeys (d : Record) : List (Option String) := d.map Prod.fst

/-- Python `d[k]` / `d.get(k)`: the value at key `k`, if present. -/
def pyGet : Record → Option String → Option Value
  | [], _ => none
  | (k', v) :: rest, k => if k' = k then some v else pyGet rest k

/-- Python `d[k] = v`: update the existing entry in place, else append a new
entry at the end (dict insertion-order semantics). -/
def pySet : Record → Option String → Value → Record
  | [], k, v => [(k, v)]
  | (k', v') :: rest, k, v =>
      if k' = k then (k', v) :: rest else (k', v') :: pySet rest k v

/-- Python `del d[k]` for a key known to be present: drop the entry.  (The
caller checks presence; on an absent key Python raises `KeyError`.) -/
def pyDel : Record → Option String → Record
  | [], _ => []
  | (k', v') :: rest, k => if k' = k then rest else (k', v') :: pyDel rest k

/-- Python `list.index(x)`: index of the first occurrence, `none` when
absent (Python raises `ValueError`). -/
def pyIndex : List String → String → Option Nat
  | [], _ => none
  | y :: ys, x => if y = x then some 0 else (pyIndex ys x).map (· + 1)

/-- Python `list.remove(x)`: drop the first occurrence, `none` when absent
(Python raises `ValueError`). -/
def pyListRemove : List String → String → Option (List String)
  | [], _ => none
  | y :: ys, x => if y = x then some ys else (pyListRemove ys x).map (y :: ·)

/-- Overwrite (or create) the file at `p` with contents `rows`. -/
def setFile (fs : FS) (p : String) (rows : CSVRows) : FS :=
  fun q => if q = p then some rows else fs q

/-- `os.remove(p)`. -/
def removeFile (fs : FS) (p : String) : FS :=
  fun q => if q = p then none else fs q

/-- `os.rename(src, dst)`: `dst` receives `src`'s contents and `src` is
gone. -/
def renameFile (fs : FS) (src dst : String) : FS :=
  fun q => if q = dst then fs src else if q = src then none else fs q

/-- One row as decoded by `csv.DictReader.__next__` given header `fns`:
`OrderedDict(zip(fns, row))`, then the rest-key `None` receives the overflow
cells when the row is longer than the header, and missing columns receive
the default `restval` `None` when the row is shorter. -/
def dictReadRow (fns : List String) (row : List String) : Record :=
  let base := (fns.zip row).foldl (fun d kv => pySet d (some kv.1) (Value.str kv.2)) []
  if fns.length < row.length then
    pySet base none (Value.rest (row.drop fns.length))
  else
    (fns.drop row.length).foldl (fun d k => pySet d (some k) Value.pyNone) base

/-- How `csv.writer` renders a record value as a cell: strings verbatim and
`None` as the empty string.  (`Value.rest` values can only sit under the
rest-key `None`, which `DictWriter`'s wrong-fields check rejects before any
cell is rendered, so that branch is unreachable from `write`.) -/
def valueToCell : Value → String
  | .str s => s
  | .pyNone => ""
  | .rest _ => ""

/-- `csv.DictWriter._dict_to_list` with the defaults used by `ExcelCSV.py`
(`extrasaction='raise'`, `restval=''`): reject the record (`ValueError`)
when it has any key outside the field list, otherwise produce one cell per
field, using the empty-string `restval` for fields the record lacks. -/
def dictToList (fns : List String) (d : Record) : Option (List String) :=
  if ∀ p ∈ d, p.1 ∈ fns.map some then
    some (fns.map fun k => valueToCell ((pyGet d (some k)).getD (Value.str "")))
  else
    none

/-- `DictWriter.writerows`: convert records to rows in order; on the first
record with extra keys, stop with a `ValueError` marker — the rows already
converted are the ones that reached the file before the exception. -/
def writeRows (fns : List String) : List Record → CSVRows × Option String
  | [] => ([], none)
  | r :: rest =>
    match dictToList fns r with
    | none => ([], some "ValueError")
    | some row =>
      let p := writeRows fns rest
      (row :: p.1, p.2)

/-- Strip `sep` from the front of `l`: the remainder when `sep` is a
leading run of `l`, else `none`. -/
def dropSep : List Char → List Char → Option (List Char)
  | [], l => some l
  | _ :: _, [] => none
  | s :: ss, c :: cs => if c = s then dropSep ss cs else none

/-- Python `str.split` with a (nonempty) separator, over character lists:
scan left to right, cutting at each non-overlapping occurrence of the
separator and keeping empty tokens; `[""]` for the empty string.  The fuel
argument (instantiated with the input length, an upper bound on the number
of steps) makes the recursion structural. -/
def pySplitAux (sep : List Char) : Nat → List Char → List (List Char)
  | _, [] => [[]]
  | 0, l => [l]
  | fuel + 1, c :: cs =>
    match dropSep sep (c :: cs) with
    | some rem => [] :: pySplitAux sep fuel rem
    | none =>
      match pySplitAux sep fuel cs with
      | [] => [[c]]
      | g :: gs => (c :: g) :: gs

/-- Python `s.split(sep)` for nonempty `sep` (the empty separator raises
`ValueError`, which the caller checks). -/
def pySplit (s sep : String) : List String :=
  (pySplitAux sep.data s.data.length s.data).map (fun cs => String.mk cs)

/-- The rows `_update_fieldnames_in_file` streams into the temporary file:
the loop writes `fieldnames` in place of the first source row and copies
every later row verbatim; an empty source file yields an empty output. -/
def syncOutRows (fns : List String) : CSVRows → CSVRows
  | [] => []
  | _ :: rest => fns :: rest

namespace ExcelCSV

/-- `_get_fieldnames_from_file`: first row of the file; `[]` when the file
does not exist (`FileNotFoundError` is caught); on an existing empty file
`reader.__next__()` raises `StopIteration`, which is not caught (`none`). -/
def get_fieldnames_from_file (st : Store) (fs : FS) : Option (List String) :=
  match fs st.path with
  | none => some []
  | some [] => none
  | some (h :: _) => some h

/-- `_update_fieldnames_in_file`: stream the file into `path + "_temp"`,
replacing the first row with `fieldnames`; then `os.remove` the original and
`os.rename` the temporary into place.  On a missing file
(`FileNotFoundError` before the temporary is created) do nothing. -/
def update_fieldnames_in_file (st : Store) (fs : FS) : FS :=
  match fs st.path with
  | none => fs
  | some rows =>
    let fs1 := setFile fs (st.path ++ "_temp") (syncOutRows st.fieldnames rows)
    let fs2 := removeFile fs1 st.path
    renameFile fs2 (st.path ++ "_temp") st.path

/-- `read`: `csv.DictReader` over the file — header is the first row, blank
rows are skipped, every other row is decoded against the header; `[]` when
the file does not exist. -/
def read (st : Store) (fs : FS) : List Record :=
  match fs st.path with
  | none => []
  | some [] => []
  | some (header :: dataRows) =>
      (dataRows.filter (fun r => decide (r ≠ []))).map (dictReadRow header)

/-- `write`: reassign `path` when `output_path` is given, then overwrite the
file with the header row followed by the records rendered through
`DictWriter` (rows up to the first failing record when one has extra
keys). -/
def write (st : Store) (fs : FS) (records : List Record) (output_path : Option String) :
    Store × FS × Option String :=
  let st1 :=
    match output_path with
    | some p => { st with path := p }
    | none => st
  let p := writeRows st1.fieldnames records
  (st1, setFile fs st1.path (st1.fieldnames :: p.1), p.2)

/-- `insert_fields_after`: find the first index of `target_field`
(`ValueError` when absent, before any mutation), splice `args` in directly
after it — the Python loop inserts the arguments backwards at `index + 1`,
which yields exactly this splice — then sync the header. -/
def insert_fields_after (st : Store) (fs : FS) (target_field : String) (args : List String) :
    Store × FS × Option String :=
  match pyIndex st.fieldnames target_field with
  | none => (st, fs, some "ValueError")
  | some idx =>
    let st1 := { st with
      fieldnames := st.fieldnames.take (idx + 1) ++ args ++ st.fieldnames.drop (idx + 1) }
    (st1, update_fieldnames_in_file st1 fs, none)

/-- The `del record[field]` loop of `remove_field`: delete `field` from each
record, `none` (`KeyError`) as soon as one record lacks it.  No file or
store state is touched either way. -/
def delRecords (field : String) : List Record → Option (List Record)
  | [] => some []
  | r :: rest =>
    if (pyGet r (some field)).isSome then
      (delRecords field rest).map (pyDel r (some field) :: ·)
    else
      none

/-- `remove_field`: read all records, delete the field from each
(`KeyError` when a record lacks it), remove it from `fieldnames`
(`ValueError` when absent), then write everything back.  Both error exits
happen before `write`, leaving store and file untouched. -/
def remove_field (st : Store) (fs : FS) (field : String) (output_path : Option String) :
    Store × FS × Option String :=
  match delRecords field (read st fs) with
  | none => (st, fs, some "KeyError")
  | some output =>
    match pyListRemove st.fieldnames field with
    | none => (st, fs, some "ValueError")
    | some fns => write { st with fieldnames := fns } fs output output_path

/-- `filter`: keep the records satisfying the predicate and write them
back. -/
def filter (st : Store) (fs : FS) (pred : Record → Bool) (output_path : Option String) :
    Store × FS × Option String :=
  write st fs ((read st fs).filter pred) output_path

/-- `set_path`: assign `self.path = path` first; the guard
`path != self.path` is then compared against the freshly assigned
attribute, so the rename branch can never run.  (In Python that branch
would in fact fail on `os.path.is_file`, which does not exist — it is dead
code either way; its body is modelled as the rename it attempts.) -/
def set_path (st : Store) (fs : FS) (p : String) : Store × FS :=
  let st1 := { st with path := p }
  if p ≠ st1.path then
    (st1, renameFile fs st1.path p)
  else
    (st1, fs)

/-- The per-record choice loop of `_add_boolean_fields_to_records` for a
non-null value: for each new field (in order) look up the choice at the same
index — `none` (`IndexError`) when `possible_choices` is shorter — and set
the new field to the checked symbol when that choice occurs among the split
tokens, else the unchecked symbol. -/
def setBooleanFields (tokens : List String) (checked_symbol unchecked_symbol : String) :
    Record → List String → List String → Option Record
  | r, [], _ => some r
  | r, k :: ks, p :: ps =>
      setBooleanFields tokens checked_symbol unchecked_symbol
        (pySet r (some k)
          (Value.str (if p ∈ tokens then checked_symbol else unchecked_symbol)))
        ks ps
  | _, _ :: _, [] => none

/-- `_add_boolean_fields_to_records`: for each record, read the original
field (`KeyError` when absent); when its value equals the null symbol, set
every new field to the empty string; otherwise split the string value on
the delimiter (a non-string value would raise `AttributeError` at `.split`,
and an empty delimiter raises `ValueError` there) and fill the new fields
through `setBooleanFields`. -/
def add_boolean_fields_to_records (records : List Record) (original_field : String)
    (possible_choices new_fields : List String)
    (delimiter checked_symbol unchecked_symbol null_symbol : String) :
    Option (List Record) :=
  records.mapM fun r =>
    match pyGet r (some original_field) with
    | none => none
    | some v =>
      if v = Value.str null_symbol then
        some (new_fields.foldl (fun d k => pySet d (some k) (Value.str "")) r)
      else
        match v with
        | Value.str s =>
            if delimiter = "" then
              none
            else
              setBooleanFields (pySplit s delimiter) checked_symbol unchecked_symbol
                r new_fields possible_choices
        | _ => none

end ExcelCSV

/-! ## Basic lemmas about the primitive models -/

theorem pyIndex_eq_none_of_not_mem (l : List String) (x : String) (h : x ∉ l) :
    pyIndex l x = none := by
  induction l with
  | nil => rfl
  | cons y ys ih =>
    have hyx : y ≠ x := fun e => h (e ▸ List.mem_cons_self y ys)
    simp only [pyIndex, if_neg hyx, ih (fun m => h (List.mem_cons_of_mem y m)),
      Option.map_none']

theorem pyListRemove_eq_none_of_not_mem (l : List String) (x : String) (h : x ∉ l) :
    pyListRemove l x = none := by
  induction l with
  | nil => rfl
  | cons y ys ih =>
    have hyx : y ≠ x := fun e => h (e ▸ List.mem_cons_self y ys)
    simp only [pyListRemove, if_neg hyx, ih (fun m => h (List.mem_cons_of_mem y m)),
      Option.map_none']

theorem append_temp_ne (p : String) : p ++ "_temp" ≠ p := by
  intro h
  have hlen : (p ++ "_temp").length = p.length + 5 := by
    rw [String.length_append]; rfl
  rw [h] at hlen
  omega

/-! ## Sample stores and file systems used in witnesses and counterexamples -/

/-- A file system with no files at all. -/
def absentFS : FS := fun _ => none

/-- A file system holding a single two-column file at `"p"`. -/
def twoColFS : FS :=
  fun q => if q = "p" then some [["a", "b"], ["1", "2"]] else none

/-- A file system holding a single one-column file at `"p"`. -/
def oneColFS : FS :=
  fun q => if q = "p" then some [["a"], ["1"]] else none

/-! ## C10: `set_path` only sets the path attribute -/

/-- C10: for every argument `p` and store state, `set_path` assigns the
`path` attribute to `p` and changes nothing else — in particular it never
renames or moves the backing file, because the attribute is assigned before
the guard compares `p` with it, making the rename branch unreachable for
every input. -/
theorem set_path_assigns_attribute_only (st : Store) (fs : FS) (p : String) :
    ExcelCSV.set_path st fs p = ({ st with path := p }, fs) := by
  simp [ExcelCSV.set_path]

/-! ## C7: missing-file tolerance -/

/-- C7: on a nonexistent path, `read` returns the empty record list rather
than an error, the header-sync operation leaves the file system exactly as
it was, and loading the schema from the file yields the empty schema —
file absence is never surfaced as an error by these operations. -/
theorem missing_file_tolerated (st : Store) (fs : FS) (h : fs st.path = none) :
    ExcelCSV.read st fs = [] ∧
    ExcelCSV.update_fieldnames_in_file st fs = fs ∧
    ExcelCSV.get_fieldnames_from_file st fs = some [] := by
  refine ⟨?_, ?_, ?_⟩ <;>
    simp [ExcelCSV.read, ExcelCSV.update_fieldnames_in_file,
      ExcelCSV.get_fieldnames_from_file, h]

/-- C7 witness: the tolerance facts at the concrete path `"p"` over the
empty file system. -/
theorem missing_file_tolerated_witness :
    absentFS (Store.mk "p" ["a"]).path = none ∧
    (ExcelCSV.read (Store.mk "p" ["a"]) absentFS = [] ∧
      ExcelCSV.update_fieldnames_in_file (Store.mk "p" ["a"]) absentFS = absentFS ∧
      ExcelCSV.get_fieldnames_from_file (Store.mk "p" ["a"]) absentFS = some []) :=
  ⟨rfl, missing_file_tolerated (Store.mk "p" ["a"]) absentFS rfl⟩

/-! ## C4: missing fields on `write` are silently defaulted, not errors -/

/-- C4 counterexample: writing a record that lacks the schema field `"b"`
does not fail — the error component is `none` — and the missing value is
silently coerced to the empty string in the file, contradicting the claim
that such a write surfaces a `MissingField`/`SchemaMismatch` error. -/
theorem write_missing_field_counterexample :
    (ExcelCSV.write (Store.mk "p" ["a", "b"]) absentFS
        [[(some "a", Value.str "1")]] none).2.2 = none ∧
    (ExcelCSV.write (Store.mk "p" ["a", "b"]) absentFS
        [[(some "a", Value.str "1")]] none).2.1 "p" =
      some [["a", "b"], ["1", ""]] := by
  constructor <;> rfl

theorem writeRows_of_no_extra_keys (fns : List String) (records : List Record)
    (h : ∀ r ∈ records, ∀ p ∈ r, p.1 ∈ fns.map some) :
    writeRows fns records =
      (records.map (fun r =>
        fns.map fun k => valueToCell ((pyGet r (some k)).getD (Value.str ""))), none) := by
  induction records with
  | nil => rfl
  | cons r rest ih =>
    have h1 : dictToList fns r =
        some (fns.map fun k => valueToCell ((pyGet r (some k)).getD (Value.str ""))) := by
      rw [dictToList, if_pos (h r (List.mem_cons_self r rest))]
    simp [writeRows, h1, ih (fun r' hr' => h r' (List.mem_cons_of_mem r hr'))]

/-- C4 corrected: as long as no record carries a key outside the schema,
`write` always succeeds — records missing schema fields are not rejected;
each missing field's cell is rendered from the default `restval`, the empty
string.  (Only *extra* fields raise; missing ones are silently patched.) -/
theorem write_missing_fields_silently_defaulted
    (st : Store) (fs : FS) (records : List Record)
    (h : ∀ r ∈ records, ∀ p ∈ r, p.1 ∈ st.fieldnames.map some) :
    (ExcelCSV.write st fs records none).2.2 = none ∧
    (ExcelCSV.write st fs records none).2.1 st.path =
      some (st.fieldnames ::
        records.map (fun r =>
          st.fieldnames.map fun k => valueToCell ((pyGet r (some k)).getD (Value.str "")))) ∧
    ∀ (r : Record) (k : String), pyGet r (some k) = none →
      valueToCell ((pyGet r (some k)).getD (Value.str "")) = "" := by
  refine ⟨?_, ?_, ?_⟩
  · simp [ExcelCSV.write, writeRows_of_no_extra_keys st.fieldnames records h]
  · simp [ExcelCSV.write, writeRows_of_no_extra_keys st.fieldnames records h, setFile]
  · intro r k hk
    simp [hk, valueToCell]

/-- C4 witness: the corrected behaviour at a concrete record missing the
schema field `"b"`. -/
theorem write_missing_fields_silently_defaulted_witness :
    (∀ r ∈ [[(some "a", Value.str "1")]], ∀ p ∈ r,
        p.1 ∈ (Store.mk "p" ["a", "b"]).fieldnames.map some) ∧
    ((ExcelCSV.write (Store.mk "p" ["a", "b"]) absentFS
        [[(some "a", Value.str "1")]] none).2.2 = none ∧
      (ExcelCSV.write (Store.mk "p" ["a", "b"]) absentFS
          [[(some "a", Value.str "1")]] none).2.1 (Store.mk "p" ["a", "b"]).path =
        some ((Store.mk "p" ["a", "b"]).fieldnames ::
          [[(some "a", Value.str "1")]].map (fun r =>
            (Store.mk "p" ["a", "b"]).fieldnames.map
              fun k => valueToCell ((pyGet r (some k)).getD (Value.str "")))) ∧
      ∀ (r : Record) (k : String), pyGet r (some k) = none →
        valueToCell ((pyGet r (some k)).getD (Value.str "")) = "") :=
  ⟨by decide, write_missing_fields_silently_defaulted (Store.mk "p" ["a", "b"]) absentFS
    [[(some "a", Value.str "1")]] (by decide)⟩

/-! ## C8: operations on a field absent from the schema abort unchanged -/

/-- C8: when `f` is not one of the store's field names,
`insert_fields_after` fails at the index lookup and `remove_field` fails
before its write step; in both cases the store (schema and path) and the
whole file system are returned unmodified — no partial mutation. -/
theorem absent_field_operations_abort
    (st : Store) (fs : FS) (f : String) (args : List String) (out : Option String)
    (h : f ∉ st.fieldnames) :
    ExcelCSV.insert_fields_after st fs f args = (st, fs, some "ValueError") ∧
    (ExcelCSV.remove_field st fs f out).1 = st ∧
    (ExcelCSV.remove_field st fs f out).2.1 = fs ∧
    (ExcelCSV.remove_field st fs f out).2.2.isSome = true := by
  have hidx := pyIndex_eq_none_of_not_mem st.fieldnames f h
  have hrem := pyListRemove_eq_none_of_not_mem st.fieldnames f h
  refine ⟨?_, ?_⟩
  · simp [ExcelCSV.insert_fields_after, hidx]
  · cases hd : ExcelCSV.delRecords f (ExcelCSV.read st fs) with
    | none => simp [ExcelCSV.remove_field, hd]
    | some output => simp [ExcelCSV.remove_field, hd, hrem]

/-- C8 witness: aborting behaviour at the concrete field `"z"`, absent from
the schema `["a", "b"]`, over a file system that does hold a file. -/
theorem absent_field_operations_abort_witness :
    "z" ∉ (Store.mk "p" ["a", "b"]).fieldnames ∧
    (ExcelCSV.insert_fields_after (Store.mk "p" ["a", "b"]) twoColFS "z" ["w"] =
        (Store.mk "p" ["a", "b"], twoColFS, some "ValueError") ∧
      (ExcelCSV.remove_field (Store.mk "p" ["a", "b"]) twoColFS "z" none).1 =
        Store.mk "p" ["a", "b"] ∧
      (ExcelCSV.remove_field (Store.mk "p" ["a", "b"]) twoColFS "z" none).2.1 = twoColFS ∧
      (ExcelCSV.remove_field (Store.mk "p" ["a", "b"]) twoColFS "z" none).2.2.isSome = true) :=
  ⟨by decide, absent_field_operations_abort (Store.mk "p" ["a", "b"]) twoColFS "z" ["w"]
    none (by decide)⟩

/-! ## C6: atomicity of header sync under mid-stream failure

`_update_fieldnames_in_file` is also modelled at the granularity of the
individual file-system effects it performs, so that a failure after any
prefix of those effects can be examined. -/

/-- One primitive file-system effect performed by
`_update_fieldnames_in_file`: creating (truncating) a file for writing,
writing one more row to it, `os.remove`, or `os.rename`. -/
inductive FSOp where
  | create (p : String)
  | appendRow (p : String) (row : List String)
  | remove (p : String)
  | rename (src dst : String)
  deriving DecidableEq, Repr

/-- Apply one primitive operation to the file system. -/
def applyOp (fs : FS) : FSOp → FS
  | .create p => setFile fs p []
  | .appendRow p row => setFile fs p (((fs p).getD []) ++ [row])
  | .remove p => removeFile fs p
  | .rename src dst => renameFile fs src dst

/-- Apply a sequence of operations in order. -/
def applyOps (ops : List FSOp) (fs : FS) : FS :=
  ops.foldl applyOp fs

/-- The exact effect sequence of `_update_fieldnames_in_file`: nothing at
all when opening the source raises `FileNotFoundError`; otherwise create
`path + "_temp"`, stream the output rows into it one by one, and only after
the whole stream has been written remove the original and rename the
temporary onto it. -/
def syncTrace (st : Store) (fs : FS) : List FSOp :=
  match fs st.path with
  | none => []
  | some rows =>
    FSOp.create (st.path ++ "_temp") ::
      ((syncOutRows st.fieldnames rows).map (FSOp.appendRow (st.path ++ "_temp")) ++
        [FSOp.remove st.path, FSOp.rename (st.path ++ "_temp") st.path])

/-- The operation does not involve the path `p` at all. -/
def opAvoids (p : String) : FSOp → Prop
  | .create q => q ≠ p
  | .appendRow q _ => q ≠ p
  | .remove q => q ≠ p
  | .rename src dst => src ≠ p ∧ dst ≠ p

theorem applyOp_avoids (fs : FS) (op : FSOp) (p : String) (h : opAvoids p op) :
    applyOp fs op p = fs p := by
  cases op with
  | create q =>
    simp only [applyOp, setFile]
    rw [if_neg (Ne.symm h)]
  | appendRow q row =>
    simp only [applyOp, setFile]
    rw [if_neg (Ne.symm h)]
  | remove q =>
    simp only [applyOp, removeFile]
    rw [if_neg (Ne.symm h)]
  | rename src dst =>
    simp only [applyOp, renameFile]
    rw [if_neg (Ne.symm h.2), if_neg (Ne.symm h.1)]

theorem applyOps_avoids (ops : List FSOp) (fs : FS) (p : String)
    (h : ∀ op ∈ ops, opAvoids p op) : applyOps ops fs p = fs p := by
  induction ops generalizing fs with
  | nil => rfl
  | cons op rest ih =>
    have h1 : applyOps (op :: rest) fs = applyOps rest (applyOp fs op) := rfl
    rw [h1, ih (applyOp fs op) (fun o ho => h o (List.mem_cons_of_mem _ ho)),
      applyOp_avoids fs op p (h op (List.mem_cons_self _ _))]

/-- C6: whatever prefix of the header-sync effect sequence has run when a
failure strikes, as long as the final remove-and-rename pair (the last two
operations) has not been reached, the original backing file is exactly its
pre-call state: every earlier effect touches only the temporary file
`path + "_temp"`, which is a different path. -/
theorem sync_failure_preserves_original (st : Store) (fs : FS) (k : Nat)
    (hk : k ≤ (syncTrace st fs).length - 2) :
    applyOps ((syncTrace st fs).take k) fs st.path = fs st.path := by
  cases hfs : fs st.path with
  | none =>
    have ht : syncTrace st fs = [] := by simp [syncTrace, hfs]
    rw [ht, List.take_nil]
    exact hfs
  | some rows =>
    rw [← hfs]
    have ht : syncTrace st fs =
        (FSOp.create (st.path ++ "_temp") ::
          (syncOutRows st.fieldnames rows).map (FSOp.appendRow (st.path ++ "_temp"))) ++
          [FSOp.remove st.path, FSOp.rename (st.path ++ "_temp") st.path] := by
      simp [syncTrace, hfs]
    have hklen : k ≤ (FSOp.create (st.path ++ "_temp") ::
        (syncOutRows st.fieldnames rows).map
          (FSOp.appendRow (st.path ++ "_temp"))).length := by
      have hlen : (syncTrace st fs).length =
          (syncOutRows st.fieldnames rows).length + 3 := by
        rw [ht]; simp
      rw [hlen] at hk
      simp only [List.length_cons, List.length_map]
      omega
    apply applyOps_avoids
    intro op hop
    rw [ht, List.take_append_of_le_length hklen] at hop
    have hop' := List.mem_of_mem_take hop
    rcases List.mem_cons.mp hop' with h1 | h2
    · rw [h1]
      exact append_temp_ne st.path
    · obtain ⟨row, _, e⟩ := List.mem_map.mp h2
      rw [← e]
      exact append_temp_ne st.path

/-- C6 witness: interrupting the sync of the concrete two-column file after
two effects (the temporary created and the new header written) leaves the
original file untouched. -/
theorem sync_failure_preserves_original_witness :
    2 ≤ (syncTrace (Store.mk "p" ["x", "y"]) twoColFS).length - 2 ∧
    applyOps ((syncTrace (Store.mk "p" ["x", "y"]) twoColFS).take 2) twoColFS
        (Store.mk "p" ["x", "y"]).path =
      twoColFS (Store.mk "p" ["x", "y"]).path :=
  ⟨by decide, sync_failure_preserves_original (Store.mk "p" ["x", "y"]) twoColFS 2
    (by decide)⟩

theorem setFile_setFile (fs : FS) (p : String) (a b : CSVRows) :
    setFile (setFile fs p a) p b = setFile fs p b := by
  funext q
  simp only [setFile]
  split <;> rfl

theorem applyOps_appendRows (rowsL : CSVRows) (fs : FS) (p : String) (acc : CSVRows) :
    applyOps (rowsL.map (FSOp.appendRow p)) (setFile fs p acc) =
      setFile fs p (acc ++ rowsL) := by
  induction rowsL generalizing acc with
  | nil => rw [List.append_nil]; rfl
  | cons row rest ih =>
    have h1 : applyOp (setFile fs p acc) (FSOp.appendRow p row) =
        setFile fs p (acc ++ [row]) := by
      simp only [applyOp, setFile_setFile]
      have : setFile fs p acc p = some acc := by simp [setFile]
      rw [this]
      rfl
    have h2 : applyOps ((FSOp.appendRow p row) :: rest.map (FSOp.appendRow p))
          (setFile fs p acc) =
        applyOps (rest.map (FSOp.appendRow p))
          (applyOp (setFile fs p acc) (FSOp.appendRow p row)) := rfl
    rw [List.map_cons, h2, h1, ih (acc ++ [row]), List.append_assoc,
      List.singleton_append]

/-- The effect-sequence model and the direct functional model of
`_update_fieldnames_in_file` agree: running the full trace produces exactly
the synced file system. -/
theorem applyOps_syncTrace_eq_update (st : Store) (fs : FS) :
    applyOps (syncTrace st fs) fs = ExcelCSV.update_fieldnames_in_file st fs := by
  cases hfs : fs st.path with
  | none =>
    have ht : syncTrace st fs = [] := by simp [syncTrace, hfs]
    rw [ht]
    simp [ExcelCSV.update_fieldnames_in_file, hfs]
    rfl
  | some rows =>
    have ht : syncTrace st fs =
        (FSOp.create (st.path ++ "_temp") ::
          (syncOutRows st.fieldnames rows).map (FSOp.appendRow (st.path ++ "_temp"))) ++
          [FSOp.remove st.path, FSOp.rename (st.path ++ "_temp") st.path] := by
      simp [syncTrace, hfs]
    have h1 : applyOps (syncTrace st fs) fs =
        applyOps [FSOp.remove st.path, FSOp.rename (st.path ++ "_temp") st.path]
          (applyOps ((syncOutRows st.fieldnames rows).map
              (FSOp.appendRow (st.path ++ "_temp")))
            (setFile fs (st.path ++ "_temp") [])) := by
      rw [ht]
      exact List.foldl_append ..
    rw [h1, applyOps_appendRows, List.nil_append]
    simp [ExcelCSV.update_fieldnames_in_file, hfs]
    rfl

/-! ## The zipped-record view of well-aligned rows

When a data row has exactly as many cells as the header has (distinct)
fields, `DictReader` decodes it to the positional zip of header and row,
and `DictWriter` encodes that record back to the very same row.  These
lemmas underpin the round-trip and header-sync claims. -/

/-- The record pairing header `fns` with row `r` positionally: keys exactly
`fns` in order, values exactly the cells of `r`. -/
def zipRecord (fns r : List String) : Record :=
  (fns.zip r).map (fun kv => (some kv.1, Value.str kv.2))

theorem pySet_append (d : Record) (k : Option String) (v : Value)
    (h : ∀ p ∈ d, p.1 ≠ k) : pySet d k v = d ++ [(k, v)] := by
  induction d with
  | nil => rfl
  | cons p rest ih =>
    obtain ⟨k', v'⟩ := p
    rw [pySet, if_neg (h (k', v') (List.mem_cons_self _ _)), List.cons_append,
      ih (fun q hq => h q (List.mem_cons_of_mem _ hq))]

theorem foldl_pySet_append (ps : Record) (d : Record)
    (hnd : (pyKeys ps).Nodup)
    (hdisj : ∀ k ∈ pyKeys ps, ∀ p ∈ d, p.1 ≠ k) :
    ps.foldl (fun acc kv => pySet acc kv.1 kv.2) d = d ++ ps := by
  induction ps generalizing d with
  | nil => rw [List.foldl_nil, List.append_nil]
  | cons kv rest ih =>
    have hk : kv.1 ∈ pyKeys (kv :: rest) := List.mem_cons_self _ _
    have h1 : pySet d kv.1 kv.2 = d ++ [(kv.1, kv.2)] :=
      pySet_append d kv.1 kv.2 (fun p hp => (hdisj kv.1 hk p hp))
    have hnd' : (pyKeys rest).Nodup := (List.nodup_cons.mp hnd).2
    have hnotmem : kv.1 ∉ pyKeys rest := (List.nodup_cons.mp hnd).1
    have hdisj' : ∀ k ∈ pyKeys rest, ∀ p ∈ d ++ [(kv.1, kv.2)], p.1 ≠ k := by
      intro k hkmem p hp
      rcases List.mem_append.mp hp with hpd | hpkv
      · exact hdisj k (List.mem_cons_of_mem _ hkmem) p hpd
      · have : p = (kv.1, kv.2) := List.mem_singleton.mp hpkv
        rw [this]
        intro e
        exact hnotmem (e ▸ hkmem)
    rw [List.foldl_cons, h1, ih (d ++ [(kv.1, kv.2)]) hnd' hdisj',
      List.append_assoc, List.singleton_append]

theorem zipRecord_keys (fns r : List String) (hlen : r.length = fns.length) :
    pyKeys (zipRecord fns r) = fns.map some := by
  rw [pyKeys, zipRecord, List.map_map]
  calc (fns.zip r).map (Prod.fst ∘ fun kv => (some kv.1, Value.str kv.2)) =
      (fns.zip r).map (some ∘ Prod.fst) := rfl
    _ = ((fns.zip r).map Prod.fst).map some := by rw [List.map_map]
    _ = fns.map some := by rw [List.map_fst_zip fns r (le_of_eq hlen.symm)]

/-- A full-width row decodes to the positional zip of header and row. -/
theorem dictReadRow_eq_zipRecord (fns r : List String)
    (hnd : fns.Nodup) (hlen : r.length = fns.length) :
    dictReadRow fns r = zipRecord fns r := by
  rw [dictReadRow]
  have hnotlt : ¬ fns.length < r.length := by omega
  rw [if_neg hnotlt, hlen, List.drop_length, List.foldl_nil]
  have hfold : (fns.zip r).foldl (fun d kv => pySet d (some kv.1) (Value.str kv.2)) [] =
      (zipRecord fns r).foldl (fun d kv => pySet d kv.1 kv.2) [] := by
    rw [zipRecord, List.foldl_map]
  rw [hfold, foldl_pySet_append (zipRecord fns r) []
    (by rw [zipRecord_keys fns r hlen]; exact hnd.map (Option.some_injective String))
    (by intro k _ p hp; cases hp), List.nil_append]

theorem pyGet_cons_of_ne (k k' : Option String) (v : Value) (rest : Record)
    (h : k' ≠ k) : pyGet ((k', v) :: rest) k = pyGet rest k := by
  rw [pyGet, if_neg h]

theorem zipRecord_cells (fns r : List String)
    (hnd : fns.Nodup) (hlen : r.length = fns.length) :
    (fns.map fun k => valueToCell ((pyGet (zipRecord fns r) (some k)).getD (Value.str ""))) =
      r := by
  induction fns generalizing r with
  | nil =>
    cases r with
    | nil => rfl
    | cons v rs => simp at hlen
  | cons f fs ih =>
    cases r with
    | nil => simp at hlen
    | cons v rs =>
      have hz : zipRecord (f :: fs) (v :: rs) = (some f, Value.str v) :: zipRecord fs rs := rfl
      have hhead : pyGet (zipRecord (f :: fs) (v :: rs)) (some f) = some (Value.str v) := by
        rw [hz, pyGet, if_pos rfl]
      have hnotmem : f ∉ fs := (List.nodup_cons.mp hnd).1
      have htail : ∀ k ∈ fs,
          valueToCell ((pyGet (zipRecord (f :: fs) (v :: rs)) (some k)).getD (Value.str "")) =
            valueToCell ((pyGet (zipRecord fs rs) (some k)).getD (Value.str "")) := by
        intro k hkmem
        have hne : (some f : Option String) ≠ some k := by
          intro e
          exact hnotmem (Option.some_injective String e ▸ hkmem)
        rw [hz, pyGet_cons_of_ne _ _ _ _ hne]
      have hlen' : rs.length = fs.length := by
        simpa using hlen
      rw [List.map_cons, hhead]
      have : fs.map (fun k =>
          valueToCell ((pyGet (zipRecord (f :: fs) (v :: rs)) (some k)).getD (Value.str ""))) =
          fs.map (fun k =>
            valueToCell ((pyGet (zipRecord fs rs) (some k)).getD (Value.str ""))) :=
        List.map_congr_left htail
      rw [this, ih rs (List.nodup_cons.mp hnd).2 hlen']
      rfl

theorem zipRecord_keys_no_extra (fns r : List String) :
    ∀ p ∈ zipRecord fns r, p.1 ∈ fns.map some := by
  intro p hp
  obtain ⟨kv, hkv, e⟩ := List.mem_map.mp hp
  rw [← e]
  exact List.mem_map_of_mem some (List.of_mem_zip hkv).1

/-- `DictWriter` encodes the positional zip record back to its row. -/
theorem dictToList_zipRecord (fns r : List String)
    (hnd : fns.Nodup) (hlen : r.length = fns.length) :
    dictToList fns (zipRecord fns r) = some r := by
  rw [dictToList, if_pos (zipRecord_keys_no_extra fns r), zipRecord_cells fns r hnd hlen]

theorem writeRows_zipRecords (fns : List String) (rs : CSVRows)
    (hnd : fns.Nodup) (hlen : ∀ r ∈ rs, r.length = fns.length) :
    writeRows fns (rs.map (zipRecord fns)) = (rs, none) := by
  induction rs with
  | nil => rfl
  | cons r rest ih =>
    rw [List.map_cons, writeRows,
      dictToList_zipRecord fns r hnd (hlen r (List.mem_cons_self _ _)),
      ih (fun r' h' => hlen r' (List.mem_cons_of_mem _ h'))]

theorem read_file_rows (st : Store) (fs : FS) (header : List String) (rows : CSVRows)
    (h : fs st.path = some (header :: rows)) (hne : ∀ r ∈ rows, r ≠ []) :
    ExcelCSV.read st fs = rows.map (dictReadRow header) := by
  unfold ExcelCSV.read
  rw [h]
  show (rows.filter (fun r => decide (r ≠ []))).map (dictReadRow header) =
    rows.map (dictReadRow header)
  rw [List.filter_eq_self.mpr (fun r hr => decide_eq_true (hne r hr))]

theorem update_fieldnames_in_file_at_path (st : Store) (fs : FS) (rows : CSVRows)
    (h : fs st.path = some rows) :
    ExcelCSV.update_fieldnames_in_file st fs st.path =
      some (syncOutRows st.fieldnames rows) := by
  unfold ExcelCSV.update_fieldnames_in_file
  rw [h]
  show renameFile
      (removeFile (setFile fs (st.path ++ "_temp") (syncOutRows st.fieldnames rows)) st.path)
      (st.path ++ "_temp") st.path st.path = some (syncOutRows st.fieldnames rows)
  simp [renameFile, removeFile, setFile, append_temp_ne st.path]

/-! ## C1: header sync rewrites only the header -/

/-- C1 counterexample: the claim fails for a new schema narrower than the
data rows.  Syncing the two-column file at `"p"` to the one-field schema
`["x"]` and decoding yields a record whose keys are `[some "x", none]` —
the overflow cell lands under `DictReader`'s rest-key — not exactly the new
schema `["x"]`. -/
theorem sync_header_counterexample :
    (ExcelCSV.read (Store.mk "p" ["x"])
        (ExcelCSV.update_fieldnames_in_file (Store.mk "p" ["x"]) twoColFS)).map pyKeys ≠
      [[some "x"]] := by
  decide

/-- C1 (amended): syncing the header of an existing file with data rows `D`
to a new schema `S'` leaves every data row untouched in the file
(unconditionally in `D`), and — provided the fields of `S'` are distinct,
`S'` is nonempty and every data row has exactly `S'.length` cells — decoding
afterwards yields exactly the positional zip of `S'` with each row of `D`:
keys exactly `S'` in order, values exactly the original cells. -/
theorem sync_header_preserves_rows (p : String) (fs : FS) (header S' : List String)
    (D : CSVRows)
    (hf : fs p = some (header :: D))
    (hnd : S'.Nodup) (hne : S' ≠ [])
    (hlen : ∀ r ∈ D, r.length = S'.length) :
    ExcelCSV.update_fieldnames_in_file (Store.mk p S') fs p = some (S' :: D) ∧
    ExcelCSV.read (Store.mk p S')
        (ExcelCSV.update_fieldnames_in_file (Store.mk p S') fs) =
      D.map (zipRecord S') := by
  have h1 : ExcelCSV.update_fieldnames_in_file (Store.mk p S') fs p = some (S' :: D) :=
    update_fieldnames_in_file_at_path (Store.mk p S') fs (header :: D) hf
  refine ⟨h1, ?_⟩
  have hnonempty : ∀ r ∈ D, r ≠ [] := by
    intro r hr e
    have hl := hlen r hr
    rw [e] at hl
    exact hne (List.length_eq_zero.mp hl.symm)
  rw [read_file_rows (Store.mk p S') _ S' D h1 hnonempty]
  exact List.map_congr_left (fun r hr => dictReadRow_eq_zipRecord S' r hnd (hlen r hr))

/-- C1 witness: the amended claim at the concrete two-column file, resynced
to the fresh schema `["x", "y"]`. -/
theorem sync_header_preserves_rows_witness :
    (twoColFS "p" = some (["a", "b"] :: [["1", "2"]]) ∧
      (["x", "y"] : List String).Nodup ∧ (["x", "y"] : List String) ≠ [] ∧
      ∀ r ∈ [["1", "2"]], List.length r = (["x", "y"] : List String).length) ∧
    (ExcelCSV.update_fieldnames_in_file (Store.mk "p" ["x", "y"]) twoColFS "p" =
        some (["x", "y"] :: [["1", "2"]]) ∧
      ExcelCSV.read (Store.mk "p" ["x", "y"])
          (ExcelCSV.update_fieldnames_in_file (Store.mk "p" ["x", "y"]) twoColFS) =
        [["1", "2"]].map (zipRecord ["x", "y"])) :=
  ⟨⟨by decide, by decide, by decide, by decide⟩,
    sync_header_preserves_rows "p" twoColFS ["a", "b"] ["x", "y"] [["1", "2"]]
      (by decide) (by decide) (by decide) (by decide)⟩

/-! ## C2: write/read round trip -/

/-- C2 counterexample: with the empty schema and one empty record, `write`
succeeds but produces only blank rows, which `DictReader` skips, so reading
back yields no records at all — the round trip loses the record. -/
theorem write_read_roundtrip_counterexample :
    (ExcelCSV.write (Store.mk "p" []) absentFS [([] : Record)] none).2.2 = none ∧
    ExcelCSV.read (ExcelCSV.write (Store.mk "p" []) absentFS [([] : Record)] none).1
        (ExcelCSV.write (Store.mk "p" []) absentFS [([] : Record)] none).2.1 = [] ∧
    ([] : List Record) ≠ [([] : Record)] := by
  refine ⟨by decide, by decide, by decide⟩

/-- C2 (amended): for a nonempty schema `S` of distinct fields and any
sequence of full records over `S` (each carrying exactly the fields of `S`
in schema order, i.e. a positional zip of `S` with a row of values),
writing and then reading returns the records exactly — values and field
order preserved. -/
theorem write_read_roundtrip (p : String) (fs : FS) (S : List String) (rs : CSVRows)
    (hnd : S.Nodup) (hne : S ≠ []) (hlen : ∀ r ∈ rs, r.length = S.length) :
    (ExcelCSV.write (Store.mk p S) fs (rs.map (zipRecord S)) none).2.2 = none ∧
    ExcelCSV.read (ExcelCSV.write (Store.mk p S) fs (rs.map (zipRecord S)) none).1
        (ExcelCSV.write (Store.mk p S) fs (rs.map (zipRecord S)) none).2.1 =
      rs.map (zipRecord S) := by
  have hw : writeRows S (rs.map (zipRecord S)) = (rs, none) :=
    writeRows_zipRecords S rs hnd hlen
  constructor
  · show (writeRows S (rs.map (zipRecord S))).2 = none
    rw [hw]
  · have hfile : (ExcelCSV.write (Store.mk p S) fs (rs.map (zipRecord S)) none).2.1
        (Store.mk p S).path = some (S :: rs) := by
      show setFile fs p (S :: (writeRows S (rs.map (zipRecord S))).1) p = some (S :: rs)
      rw [hw]
      simp [setFile]
    have hnonempty : ∀ r ∈ rs, r ≠ [] := by
      intro r hr e
      have hl := hlen r hr
      rw [e] at hl
      exact hne (List.length_eq_zero.mp hl.symm)
    have hst : (ExcelCSV.write (Store.mk p S) fs (rs.map (zipRecord S)) none).1 =
        Store.mk p S := rfl
    rw [hst, read_file_rows (Store.mk p S) _ S rs hfile hnonempty]
    exact List.map_congr_left (fun r hr => dictReadRow_eq_zipRecord S r hnd (hlen r hr))

/-- C2 witness: the round trip at the concrete schema `["a"]` and the single
record `a = "1"`. -/
theorem write_read_roundtrip_witness :
    ((["a"] : List String).Nodup ∧ (["a"] : List String) ≠ [] ∧
      ∀ r ∈ [["1"]], List.length r = (["a"] : List String).length) ∧
    ((ExcelCSV.write (Store.mk "p" ["a"]) absentFS ([["1"]].map (zipRecord ["a"])) none).2.2 =
        none ∧
      ExcelCSV.read
          (ExcelCSV.write (Store.mk "p" ["a"]) absentFS ([["1"]].map (zipRecord ["a"])) none).1
          (ExcelCSV.write (Store.mk "p" ["a"]) absentFS ([["1"]].map (zipRecord ["a"])) none).2.1 =
        [["1"]].map (zipRecord ["a"])) :=
  ⟨⟨by decide, by decide, by decide⟩,
    write_read_roundtrip "p" absentFS ["a"] [["1"]] (by decide) (by decide) (by decide)⟩

/-! ## C9: a non-`none` `output_path` permanently redirects the store -/

theorem write_redirect (st : Store) (fs : FS) (records : List Record) (out : String)
    (hne : out ≠ st.path) :
    (ExcelCSV.write st fs records (some out)).1.path = out ∧
    (ExcelCSV.write st fs records (some out)).2.1 out =
      some (st.fieldnames :: (writeRows st.fieldnames records).1) ∧
    (ExcelCSV.write st fs records (some out)).2.1 st.path = fs st.path := by
  refine ⟨rfl, ?_, ?_⟩
  · show setFile fs out (st.fieldnames :: (writeRows st.fieldnames records).1) out =
      some (st.fieldnames :: (writeRows st.fieldnames records).1)
    simp [setFile]
  · show setFile fs out (st.fieldnames :: (writeRows st.fieldnames records).1) st.path =
      fs st.path
    simp [setFile, Ne.symm hne]

/-- C9 counterexample: when `output_path` equals the store's current path,
the file at the original path is not left unchanged — `write` overwrites
it. -/
theorem output_path_same_path_counterexample :
    (ExcelCSV.write (Store.mk "p" ["a"]) oneColFS
        [[(some "a", Value.str "2")]] (some "p")).2.1 "p" ≠ oneColFS "p" := by
  decide

/-- C9 (amended): for an `output_path` different from the store's current
path, `write` reassigns the `path` attribute to `output_path` before
writing (so every later operation on the handle targets it), writes the
header and rows to `output_path`, and leaves the file at the original path
unchanged; the same holds for `remove_field` whenever it completes without
error (its error exits happen before any write and leave the path
attribute alone), and for `filter` unconditionally. -/
theorem output_path_redirects (st : Store) (fs : FS) (records : List Record)
    (f : String) (pred : Record → Bool) (out : String) (hne : out ≠ st.path) :
    ((ExcelCSV.write st fs records (some out)).1.path = out ∧
      (∃ rows, (ExcelCSV.write st fs records (some out)).2.1 out =
        some (st.fieldnames :: rows)) ∧
      (ExcelCSV.write st fs records (some out)).2.1 st.path = fs st.path) ∧
    ((ExcelCSV.remove_field st fs f (some out)).2.2 = none →
      (ExcelCSV.remove_field st fs f (some out)).1.path = out ∧
      (ExcelCSV.remove_field st fs f (some out)).2.1 st.path = fs st.path) ∧
    ((ExcelCSV.filter st fs pred (some out)).1.path = out ∧
      (ExcelCSV.filter st fs pred (some out)).2.1 st.path = fs st.path) := by
  obtain ⟨hw1, hw2, hw3⟩ := write_redirect st fs records out hne
  refine ⟨⟨hw1, ⟨(writeRows st.fieldnames records).1, hw2⟩, hw3⟩, ?_, ?_⟩
  · intro hsucc
    cases hd : ExcelCSV.delRecords f (ExcelCSV.read st fs) with
    | none =>
      unfold ExcelCSV.remove_field at hsucc
      rw [hd] at hsucc
      simp at hsucc
    | some output =>
      cases hr : pyListRemove st.fieldnames f with
      | none =>
        unfold ExcelCSV.remove_field at hsucc
        rw [hd, hr] at hsucc
        simp at hsucc
      | some fns =>
        unfold ExcelCSV.remove_field
        rw [hd, hr]
        obtain ⟨h1, _, h3⟩ :=
          write_redirect { st with fieldnames := fns } fs output out hne
        exact ⟨h1, h3⟩
  · obtain ⟨h1, _, h3⟩ :=
      write_redirect st fs ((ExcelCSV.read st fs).filter pred) out hne
    exact ⟨h1, h3⟩

/-- C9 witness: the redirection facts at the concrete store `"p"`,
output path `"q"`, one record, the field `"a"` and the always-true
predicate. -/
theorem output_path_redirects_witness :
    "q" ≠ (Store.mk "p" ["a"]).path ∧
    (((ExcelCSV.write (Store.mk "p" ["a"]) oneColFS
          [[(some "a", Value.str "2")]] (some "q")).1.path = "q" ∧
        (∃ rows, (ExcelCSV.write (Store.mk "p" ["a"]) oneColFS
            [[(some "a", Value.str "2")]] (some "q")).2.1 "q" =
          some ((Store.mk "p" ["a"]).fieldnames :: rows)) ∧
        (ExcelCSV.write (Store.mk "p" ["a"]) oneColFS
            [[(some "a", Value.str "2")]] (some "q")).2.1 (Store.mk "p" ["a"]).path =
          oneColFS (Store.mk "p" ["a"]).path) ∧
      ((ExcelCSV.remove_field (Store.mk "p" ["a"]) oneColFS "a" (some "q")).2.2 = none →
        (ExcelCSV.remove_field (Store.mk "p" ["a"]) oneColFS "a" (some "q")).1.path = "q" ∧
        (ExcelCSV.remove_field (Store.mk "p" ["a"]) oneColFS "a"
            (some "q")).2.1 (Store.mk "p" ["a"]).path =
          oneColFS (Store.mk "p" ["a"]).path) ∧
      ((ExcelCSV.filter (Store.mk "p" ["a"]) oneColFS (fun _ => true)
            (some "q")).1.path = "q" ∧
        (ExcelCSV.filter (Store.mk "p" ["a"]) oneColFS (fun _ => true)
            (some "q")).2.1 (Store.mk "p" ["a"]).path =
          oneColFS (Store.mk "p" ["a"]).path)) :=
  ⟨by decide, output_path_redirects (Store.mk "p" ["a"]) oneColFS
    [[(some "a", Value.str "2")]] "a" (fun _ => true) "q" (by decide)⟩

/-! ## C3: insert-then-remove on the last field

`insert_fields_after` only rewrites the header, so after it the header is
one field wider than every data row; the lemmas below describe how
`DictReader` decodes such one-short rows and how `remove_field` undoes the
insertion. -/

theorem foldl_zip_base (S r : List String) (hnd : S.Nodup) (hlen : r.length = S.length) :
    (S.zip r).foldl (fun d kv => pySet d (some kv.1) (Value.str kv.2)) [] =
      zipRecord S r := by
  have hfold : (S.zip r).foldl (fun d kv => pySet d (some kv.1) (Value.str kv.2)) [] =
      (zipRecord S r).foldl (fun d kv => pySet d kv.1 kv.2) [] := by
    rw [zipRecord, List.foldl_map]
  rw [hfold, foldl_pySet_append (zipRecord S r) []
    (by rw [zipRecord_keys S r hlen]; exact hnd.map (Option.some_injective String))
    (by intro k _ p hp; cases hp), List.nil_append]

theorem zipRecord_key_ne (S r : List String) (X : String) (h : X ∉ S) :
    ∀ p ∈ zipRecord S r, p.1 ≠ some X := by
  intro p hp e
  obtain ⟨kv, hkv, hpe⟩ := List.mem_map.mp hp
  rw [← hpe] at e
  have : kv.1 = X := Option.some_injective String e
  exact h (this ▸ (List.of_mem_zip hkv).1)

/-- Decoding a data row that is one cell short of the header `S ++ [X]`:
the row zips positionally with `S`, and the surplus header field `X`
receives the `restval` `None`. -/
theorem dictReadRow_one_short (S : List String) (X : String) (r : List String)
    (hnd : (S ++ [X]).Nodup) (hlen : r.length = S.length) :
    dictReadRow (S ++ [X]) r = zipRecord S r ++ [(some X, Value.pyNone)] := by
  have hndS : S.Nodup := (List.nodup_append.mp hnd).1
  have hXS : X ∉ S := fun hmem =>
    (List.nodup_append.mp hnd).2.2 hmem (List.mem_singleton_self X)
  rw [dictReadRow]
  have hlA : (S ++ [X]).length = S.length + 1 := by simp
  have hnotlt : ¬ (S ++ [X]).length < r.length := by rw [hlA, hlen]; omega
  rw [if_neg hnotlt]
  have hzip : (S ++ [X]).zip r = S.zip r := by
    have h0 : (S ++ [X]).zip (r ++ []) = S.zip r ++ [X].zip [] :=
      List.zip_append hlen.symm
    rw [List.append_nil] at h0
    rw [h0, List.zip_nil_right, List.append_nil]
  have hdrop : (S ++ [X]).drop r.length = [X] := by
    rw [hlen]
    exact List.drop_left S [X]
  rw [hzip, hdrop, foldl_zip_base S r hndS hlen, List.foldl_cons, List.foldl_nil]
  exact pySet_append (zipRecord S r) (some X) Value.pyNone (zipRecord_key_ne S r X hXS)

theorem pyGet_append_last (d : Record) (k : Option String) (v : Value)
    (h : ∀ p ∈ d, p.1 ≠ k) : pyGet (d ++ [(k, v)]) k = some v := by
  induction d with
  | nil => simp [pyGet]
  | cons q rest ih =>
    obtain ⟨k', v'⟩ := q
    rw [List.cons_append, pyGet, if_neg (h (k', v') (List.mem_cons_self _ _))]
    exact ih (fun p hp => h p (List.mem_cons_of_mem _ hp))

theorem pyDel_append_last (d : Record) (k : Option String) (v : Value)
    (h : ∀ p ∈ d, p.1 ≠ k) : pyDel (d ++ [(k, v)]) k = d := by
  induction d with
  | nil => simp [pyDel]
  | cons q rest ih =>
    obtain ⟨k', v'⟩ := q
    rw [List.cons_append, pyDel, if_neg (h (k', v') (List.mem_cons_self _ _)),
      ih (fun p hp => h p (List.mem_cons_of_mem _ hp))]

theorem delRecords_all_present (field : String) (records : List Record)
    (h : ∀ r ∈ records, (pyGet r (some field)).isSome = true) :
    ExcelCSV.delRecords field records =
      some (records.map (fun r => pyDel r (some field))) := by
  induction records with
  | nil => rfl
  | cons r rest ih =>
    rw [ExcelCSV.delRecords, if_pos (h r (List.mem_cons_self _ _)),
      ih (fun r' hr' => h r' (List.mem_cons_of_mem _ hr')), Option.map_some',
      List.map_cons]

theorem pyListRemove_append_last (S : List String) (X : String) (h : X ∉ S) :
    pyListRemove (S ++ [X]) X = some S := by
  induction S with
  | nil => simp [pyListRemove]
  | cons y ys ih =>
    have hyX : y ≠ X := fun e => h (e ▸ List.mem_cons_self y ys)
    rw [List.cons_append, pyListRemove, if_neg hyX,
      ih (fun m => h (List.mem_cons_of_mem y m)), Option.map_some']

theorem pyIndex_append_last (S : List String) (f : String) (h : f ∉ S) :
    pyIndex (S ++ [f]) f = some S.length := by
  induction S with
  | nil => simp [pyIndex]
  | cons y ys ih =>
    have hyf : y ≠ f := fun e => h (e ▸ List.mem_cons_self y ys)
    rw [List.cons_append, pyIndex, if_neg hyf,
      ih (fun m => h (List.mem_cons_of_mem y m)), Option.map_some', List.length_cons]

/-- C3 counterexample: on the two-column file (`schema ["a", "b"]`, row
`["1", "2"]`), inserting `"X"` after the *first* field `"a"` and then
removing `"X"` does not restore the original rows: the header-only insert
leaves the row one cell short, `DictReader` hands the cell `"2"` to `"X"`
positionally, and deleting `"X"` discards it — the row comes back as
`["1", ""]`. -/
theorem insert_remove_counterexample :
    (ExcelCSV.remove_field
        (ExcelCSV.insert_fields_after (Store.mk "p" ["a", "b"]) twoColFS "a" ["X"]).1
        (ExcelCSV.insert_fields_after (Store.mk "p" ["a", "b"]) twoColFS "a" ["X"]).2.1
        "X" none).2.1 "p" = some [["a", "b"], ["1", ""]] ∧
    some [["a", "b"], ["1", ""]] ≠ twoColFS "p" := by
  constructor
  · decide
  · decide

/-- C3 (amended): `insert_fields_after(f, "X")` followed by
`remove_field("X")` restores the original schema and the original row
content exactly *when `f` is the last field of the schema* (the schema
being duplicate-free, `"X"` fresh, and every data row as wide as the
schema): the inserted column then sits past every data cell, absorbs only
the reader's `None` padding, and its removal reproduces the original file.
For any earlier `f` the pair of operations corrupts the column after `f`
(see the counterexample). -/
theorem insert_remove_last_field_symmetric (p : String) (fs : FS) (T : List String)
    (f : String) (D : CSVRows)
    (hnd : (T ++ [f]).Nodup) (hX : "X" ∉ T ++ [f])
    (hf : fs p = some ((T ++ [f]) :: D))
    (hlen : ∀ r ∈ D, r.length = T.length + 1) :
    (ExcelCSV.insert_fields_after (Store.mk p (T ++ [f])) fs f ["X"]).2.2 = none ∧
    (ExcelCSV.remove_field
        (ExcelCSV.insert_fields_after (Store.mk p (T ++ [f])) fs f ["X"]).1
        (ExcelCSV.insert_fields_after (Store.mk p (T ++ [f])) fs f ["X"]).2.1
        "X" none).2.2 = none ∧
    (ExcelCSV.remove_field
        (ExcelCSV.insert_fields_after (Store.mk p (T ++ [f])) fs f ["X"]).1
        (ExcelCSV.insert_fields_after (Store.mk p (T ++ [f])) fs f ["X"]).2.1
        "X" none).1 = Store.mk p (T ++ [f]) ∧
    (ExcelCSV.remove_field
        (ExcelCSV.insert_fields_after (Store.mk p (T ++ [f])) fs f ["X"]).1
        (ExcelCSV.insert_fields_after (Store.mk p (T ++ [f])) fs f ["X"]).2.1
        "X" none).2.1 p = fs p := by
  have hfT : f ∉ T := fun hmem =>
    (List.nodup_append.mp hnd).2.2 hmem (List.mem_singleton_self f)
  have hidx : pyIndex (T ++ [f]) f = some T.length := pyIndex_append_last T f hfT
  have e1 : (T ++ [f]).take (T.length + 1) = T ++ [f] := by
    have hl : (T ++ [f]).length = T.length + 1 := by simp
    rw [← hl]
    exact List.take_length (T ++ [f])
  have e2 : (T ++ [f]).drop (T.length + 1) = [] := by
    have hl : (T ++ [f]).length = T.length + 1 := by simp
    rw [← hl]
    exact List.drop_length (T ++ [f])
  have hins : ExcelCSV.insert_fields_after (Store.mk p (T ++ [f])) fs f ["X"] =
      (Store.mk p ((T ++ [f]) ++ ["X"]),
        ExcelCSV.update_fieldnames_in_file (Store.mk p ((T ++ [f]) ++ ["X"])) fs,
        none) := by
    simp only [ExcelCSV.insert_fields_after, hidx, e1, e2, List.append_nil]
  set fs1 := ExcelCSV.update_fieldnames_in_file (Store.mk p ((T ++ [f]) ++ ["X"])) fs
    with hfs1
  have hfile1 : fs1 p = some (((T ++ [f]) ++ ["X"]) :: D) :=
    update_fieldnames_in_file_at_path (Store.mk p ((T ++ [f]) ++ ["X"])) fs
      ((T ++ [f]) :: D) hf
  have hndH : ((T ++ [f]) ++ ["X"]).Nodup :=
    hnd.append (List.nodup_singleton "X")
      (fun a ha hb => hX (List.mem_singleton.mp hb ▸ ha))
  have hnonempty : ∀ r ∈ D, r ≠ [] := by
    intro r hr e
    have hl := hlen r hr
    rw [e] at hl
    simp at hl
  have hread : ExcelCSV.read (Store.mk p ((T ++ [f]) ++ ["X"])) fs1 =
      D.map (fun r => zipRecord (T ++ [f]) r ++ [(some "X", Value.pyNone)]) := by
    rw [read_file_rows (Store.mk p ((T ++ [f]) ++ ["X"])) fs1 ((T ++ [f]) ++ ["X"]) D
      hfile1 hnonempty]
    exact List.map_congr_left (fun r hr =>
      dictReadRow_one_short (T ++ [f]) "X" r hndH (by simpa using hlen r hr))
  have hkeyne : ∀ r ∈ D, ∀ q ∈ zipRecord (T ++ [f]) r, q.1 ≠ some "X" :=
    fun r _ => zipRecord_key_ne (T ++ [f]) r "X" hX
  have hpresent : ∀ rec ∈ D.map (fun r =>
      zipRecord (T ++ [f]) r ++ [(some "X", Value.pyNone)]),
      (pyGet rec (some "X")).isSome = true := by
    intro rec hrec
    obtain ⟨r, hr, hre⟩ := List.mem_map.mp hrec
    rw [← hre, pyGet_append_last _ _ _ (hkeyne r hr)]
    rfl
  have hdel : ExcelCSV.delRecords "X"
      (ExcelCSV.read (Store.mk p ((T ++ [f]) ++ ["X"])) fs1) =
      some (D.map (zipRecord (T ++ [f]))) := by
    rw [hread, delRecords_all_present "X" _ hpresent]
    congr 1
    rw [List.map_map]
    exact List.map_congr_left (fun r hr =>
      pyDel_append_last (zipRecord (T ++ [f]) r) (some "X") Value.pyNone (hkeyne r hr))
  have hlrm : pyListRemove ((T ++ [f]) ++ ["X"]) "X" = some (T ++ [f]) :=
    pyListRemove_append_last (T ++ [f]) "X" hX
  have hwr : writeRows (T ++ [f]) (D.map (zipRecord (T ++ [f]))) = (D, none) :=
    writeRows_zipRecords (T ++ [f]) D hnd (fun r hr => by simpa using hlen r hr)
  have hrm : ExcelCSV.remove_field (Store.mk p ((T ++ [f]) ++ ["X"])) fs1 "X" none =
      (Store.mk p (T ++ [f]), setFile fs1 p ((T ++ [f]) :: D), none) := by
    simp only [ExcelCSV.remove_field, hdel, hlrm, ExcelCSV.write, hwr]
  rw [hins]
  simp only [hrm]
  refine ⟨trivial, trivial, trivial, ?_⟩
  show setFile fs1 p ((T ++ [f]) :: D) p = fs p
  rw [hf]
  simp [setFile]

/-- C3 witness: the amended claim at the concrete store `["a", "b"]` with
`f = "b"` (the last field) over the two-column file: the pair of operations
gives back the original schema and file. -/
theorem insert_remove_last_field_symmetric_witness :
    ((["a"] ++ ["b"] : List String).Nodup ∧ "X" ∉ (["a"] ++ ["b"] : List String) ∧
      twoColFS "p" = some ((["a"] ++ ["b"]) :: [["1", "2"]]) ∧
      ∀ r ∈ [["1", "2"]], List.length r = List.length ["a"] + 1) ∧
    ((ExcelCSV.insert_fields_after (Store.mk "p" (["a"] ++ ["b"])) twoColFS "b"
          ["X"]).2.2 = none ∧
      (ExcelCSV.remove_field
          (ExcelCSV.insert_fields_after (Store.mk "p" (["a"] ++ ["b"])) twoColFS "b"
            ["X"]).1
          (ExcelCSV.insert_fields_after (Store.mk "p" (["a"] ++ ["b"])) twoColFS "b"
            ["X"]).2.1
          "X" none).2.2 = none ∧
      (ExcelCSV.remove_field
          (ExcelCSV.insert_fields_after (Store.mk "p" (["a"] ++ ["b"])) twoColFS "b"
            ["X"]).1
          (ExcelCSV.insert_fields_after (Store.mk "p" (["a"] ++ ["b"])) twoColFS "b"
            ["X"]).2.1
          "X" none).1 = Store.mk "p" (["a"] ++ ["b"]) ∧
      (ExcelCSV.remove_field
          (ExcelCSV.insert_fields_after (Store.mk "p" (["a"] ++ ["b"])) twoColFS "b"
            ["X"]).1
          (ExcelCSV.insert_fields_after (Store.mk "p" (["a"] ++ ["b"])) twoColFS "b"
            ["X"]).2.1
          "X" none).2.1 "p" = twoColFS "p") :=
  ⟨⟨by decide, by decide, by decide, by decide⟩,
    insert_remove_last_field_symmetric "p" twoColFS ["a"] "b" [["1", "2"]]
      (by decide) (by decide) (by decide) (by decide)⟩

/-! ## C5: categorical-to-boolean expansion -/

/-- The mapping C5 describes, stated in the spec's words: when the original
field's value equals the null marker, every new boolean field is set (i.e.
appended, the fields being new) to the empty string; otherwise the value is
split on the delimiter and each new field is set to the checked symbol
exactly when its corresponding label occurs among the split tokens, else
the unchecked symbol. -/
def booleanExpansionSpec (original_field : String) (possible_choices new_fields : List String)
    (delimiter checked_symbol unchecked_symbol null_symbol : String) (r : Record) : Record :=
  match pyGet r (some original_field) with
  | some (Value.str s) =>
      if s = null_symbol then
        r ++ new_fields.map (fun k => (some k, Value.str ""))
      else
        r ++ (new_fields.zip possible_choices).map (fun kp =>
          (some kp.1,
            Value.str (if kp.2 ∈ pySplit s delimiter then checked_symbol
              else unchecked_symbol)))
  | _ => r

theorem foldl_pySet_blank (nf : List String) (r : Record) (hnf : nf.Nodup)
    (hfresh : ∀ k ∈ nf, ∀ q ∈ r, q.1 ≠ some k) :
    nf.foldl (fun d k => pySet d (some k) (Value.str "")) r =
      r ++ nf.map (fun k => (some k, Value.str "")) := by
  have h1 : nf.foldl (fun d k => pySet d (some k) (Value.str "")) r =
      (nf.map (fun k => (some k, Value.str ""))).foldl (fun d kv => pySet d kv.1 kv.2) r := by
    rw [List.foldl_map]
  have hkeys : pyKeys (nf.map (fun k => (some k, Value.str ""))) = nf.map some := by
    rw [pyKeys, List.map_map]
    exact List.map_congr_left (fun _ _ => rfl)
  rw [h1]
  apply foldl_pySet_append
  · rw [hkeys]
    exact hnf.map (Option.some_injective String)
  · intro k hk q hq
    rw [hkeys] at hk
    obtain ⟨k0, hk0, hke⟩ := List.mem_map.mp hk
    rw [← hke]
    exact hfresh k0 hk0 q hq

theorem setBooleanFields_eq (tokens : List String) (c u : String) (r : Record)
    (nf poss : List String) (hle : nf.length ≤ poss.length) (hnd : nf.Nodup)
    (hfresh : ∀ k ∈ nf, ∀ q ∈ r, q.1 ≠ some k) :
    ExcelCSV.setBooleanFields tokens c u r nf poss =
      some (r ++ (nf.zip poss).map (fun kp =>
        (some kp.1, Value.str (if kp.2 ∈ tokens then c else u)))) := by
  induction nf generalizing r poss with
  | nil => simp [ExcelCSV.setBooleanFields]
  | cons k ks ih =>
    cases poss with
    | nil => simp at hle
    | cons pc ps =>
      rw [ExcelCSV.setBooleanFields]
      have hset : pySet r (some k) (Value.str (if pc ∈ tokens then c else u)) =
          r ++ [(some k, Value.str (if pc ∈ tokens then c else u))] :=
        pySet_append r _ _ (fun q hq => hfresh k (List.mem_cons_self _ _) q hq)
      have hknotks : k ∉ ks := (List.nodup_cons.mp hnd).1
      have hfresh' : ∀ k' ∈ ks, ∀ q ∈
          r ++ [(some k, Value.str (if pc ∈ tokens then c else u))], q.1 ≠ some k' := by
        intro k' hk' q hq
        rcases List.mem_append.mp hq with hq1 | hq2
        · exact hfresh k' (List.mem_cons_of_mem _ hk') q hq1
        · rw [List.mem_singleton.mp hq2]
          intro e
          exact hknotks (Option.some_injective String e ▸ hk')
      rw [hset, ih (r ++ [(some k, Value.str (if pc ∈ tokens then c else u))]) ps
        (by simpa using hle) (List.nodup_cons.mp hnd).2 hfresh',
        List.append_assoc, List.singleton_append]
      rfl

theorem mapM_eq_map_of_some (F : Record → Option Record) (G : Record → Record)
    (l : List Record) (h : ∀ r ∈ l, F r = some (G r)) :
    l.mapM F = some (l.map G) := by
  induction l with
  | nil => rfl
  | cons r rest ih =>
    rw [List.mapM_cons, h r (List.mem_cons_self _ _),
      ih (fun r' hr' => h r' (List.mem_cons_of_mem _ hr'))]
    rfl

/-- C5: `_add_boolean_fields_to_records` (the record-mapping step of
`convert_choice_field_to_boolean_field`) maps each record exactly as the
claim says: a null-marker value sets every new boolean field to the empty
string, any other (string) value is split on the delimiter and each new
field receives the checked symbol precisely when its label occurs among the
split tokens, else the unchecked symbol — with the new fields appended in
order after the record's existing entries.  Hypotheses: every record holds
a string value for the original field, the new field names are distinct and
not already keys of the record, and the choice list covers the new-field
list. -/
theorem add_boolean_fields_matches_spec (records : List Record)
    (original_field : String) (possible_choices new_fields : List String)
    (delimiter checked_symbol unchecked_symbol null_symbol : String)
    (hdelim : delimiter ≠ "")
    (hval : ∀ r ∈ records, ∃ s, pyGet r (some original_field) = some (Value.str s))
    (hfresh : ∀ r ∈ records, ∀ k ∈ new_fields, ∀ q ∈ r, q.1 ≠ some k)
    (hnf : new_fields.Nodup)
    (hle : new_fields.length ≤ possible_choices.length) :
    ExcelCSV.add_boolean_fields_to_records records original_field possible_choices
        new_fields delimiter checked_symbol unchecked_symbol null_symbol =
      some (records.map (booleanExpansionSpec original_field possible_choices
        new_fields delimiter checked_symbol unchecked_symbol null_symbol)) := by
  unfold ExcelCSV.add_boolean_fields_to_records
  apply mapM_eq_map_of_some
  intro r hr
  obtain ⟨s, hs⟩ := hval r hr
  simp only [hs, booleanExpansionSpec]
  by_cases hnul : s = null_symbol
  · rw [if_pos (by rw [hnul]), if_pos hnul,
      foldl_pySet_blank new_fields r hnf (hfresh r hr)]
  · rw [if_neg (fun e => hnul (Value.str.injEq s null_symbol ▸ e)), if_neg hdelim,
      if_neg hnul,
      setBooleanFields_eq (pySplit s delimiter) checked_symbol unchecked_symbol r
        new_fields possible_choices hle hnf (hfresh r hr)]

/-- C5 witness: the claim's concrete instance — records
`[{pet: "Cat, Dog"}, {pet: "No data"}, {pet: ""}]` with delimiter `", "`,
null marker `"No data"` and vocabulary `["Cat", "Dog"]` expand to
`Cat? = Y, Dog? = Y`, then `Cat? = '', Dog? = ''`, then
`Cat? = N, Dog? = N`. -/
theorem add_boolean_fields_matches_spec_witness :
    (", " : String) ≠ "" ∧
    (∀ r ∈ [[(some "pet", Value.str "Cat, Dog")], [(some "pet", Value.str "No data")],
        [(some "pet", Value.str "")]],
      ∃ s, pyGet r (some "pet") = some (Value.str s)) ∧
    (∀ r ∈ [[(some "pet", Value.str "Cat, Dog")], [(some "pet", Value.str "No data")],
        [(some "pet", Value.str "")]],
      ∀ k ∈ ["Cat?", "Dog?"], ∀ q ∈ r, q.1 ≠ some k) ∧
    (["Cat?", "Dog?"] : List String).Nodup ∧
    (["Cat?", "Dog?"] : List String).length ≤ (["Cat", "Dog"] : List String).length ∧
    ExcelCSV.add_boolean_fields_to_records
        [[(some "pet", Value.str "Cat, Dog")], [(some "pet", Value.str "No data")],
          [(some "pet", Value.str "")]]
        "pet" ["Cat", "Dog"] ["Cat?", "Dog?"] ", " "Y" "N" "No data" =
      some
        [[(some "pet", Value.str "Cat, Dog"), (some "Cat?", Value.str "Y"),
            (some "Dog?", Value.str "Y")],
          [(some "pet", Value.str "No data"), (some "Cat?", Value.str ""),
            (some "Dog?", Value.str "")],
          [(some "pet", Value.str ""), (some "Cat?", Value.str "N"),
            (some "Dog?", Value.str "N")]] := by
  refine ⟨by decide, ?_, by decide, by decide, by decide, ?_⟩
  · intro r hr
    simp only [List.mem_cons, List.not_mem_nil, or_false] at hr
    rcases hr with rfl | rfl | rfl
    · exact ⟨"Cat, Dog", by decide⟩
    · exact ⟨"No data", by decide⟩
    · exact ⟨"", by decide⟩
  · rw [add_boolean_fields_matches_spec
      [[(some "pet", Value.str "Cat, Dog")], [(some "pet", Value.str "No data")],
        [(some "pet", Value.str "")]]
      "pet" ["Cat", "Dog"] ["Cat?", "Dog?"] ", " "Y" "N" "No data"
      (by decide)
      (by
        intro r hr
        simp only [List.mem_cons, List.not_mem_nil, or_false] at hr
        rcases hr with rfl | rfl | rfl
        · exact ⟨"Cat, Dog", by decide⟩
        · exact ⟨"No data", by decide⟩
        · exact ⟨"", by decide⟩)
      (by decide) (by decide) (by decide)]
    decide
